import Mathlib

/-!
Verification of the SalesIQ client core: a shallow embedding of the
transcript synchronization helpers (`TranscriptView.tsx`), the analysis
cache and recent-session logic of the in-memory `App` variant, the
persisted (Supabase) `App` variant, and the lazy AI-client initialization
(`getAIClient`).  Machine integers of the source are modelled as `Int`,
JS `number` values that may be `NaN` as `Option Int` (with `none`
standing for `NaN`), and fallible operations as `Except`/outcome
parameters.
-/

namespace SalesIQ

/-! ## JS string primitives

Models of the JavaScript string builtins the components use.  JS
`toLowerCase` is modelled character-wise (the source only compares
transcript text and search queries, where simple case mapping is what
the browser performs on the relevant alphabets); `trim` drops the usual
whitespace characters from both ends; `includes` is substring
containment. -/

/-- Character-wise lower casing, modelling `String.prototype.toLowerCase`
on the simple case-mapping fragment. -/
def jsToLowerList (l : List Char) : List Char := l.map Char.toLower

/-- String form of `jsToLowerList`. -/
def jsToLower (s : String) : String := ⟨jsToLowerList s.data⟩

/-- Whitespace recognised by the model of `String.prototype.trim`. -/
def jsWhitespace (c : Char) : Bool :=
  c = ' ' || c = '\t' || c = '\n' || c = '\r'

/-- Models `String.prototype.trim`: drop whitespace from both ends. -/
def jsTrimList (l : List Char) : List Char :=
  ((l.dropWhile jsWhitespace).reverse.dropWhile jsWhitespace).reverse

/-- String form of `jsTrimList`. -/
def jsTrim (s : String) : String := ⟨jsTrimList s.data⟩

/-- Does the list `t` start with the list `p` (exact characters)? -/
def listStartsWith : List Char → List Char → Bool
  | [], _ => true
  | _ :: _, [] => false
  | a :: ps, b :: ts => a == b && listStartsWith ps ts

/-- Does the pattern `p` occur contiguously inside `t`?  Models JS
`String.prototype.includes` on the decoded character sequence. -/
def listOccurs (p : List Char) : List Char → Bool
  | [] => listStartsWith p []
  | b :: ts => listStartsWith p (b :: ts) || listOccurs p ts

/-- Models `s.includes(sub)`. -/
def jsIncludes (s sub : String) : Bool := listOccurs sub.data s.data

/-- Models `str.split(':')`: the empty string splits to `[""]`, and each
colon starts a new (possibly empty) part. -/
def splitOnColon : List Char → List (List Char)
  | [] => [[]]
  | c :: cs =>
    if c = ':' then [] :: splitOnColon cs
    else
      match splitOnColon cs with
      | [] => [[c]]
      | p :: ps => (c :: p) :: ps

/-- Numeric value of a list of decimal digits. -/
def digitsVal (l : List Char) : Nat :=
  l.foldl (fun acc c => acc * 10 + (c.toNat - '0'.toNat)) 0

/-- Models the JS `Number()` string conversion on the fragment that
timecode tokens inhabit: a whitespace-only string converts to `0`, an
optionally signed string of decimal digits converts to its value, and
every other string (the timecodes never carry fractional, exponent or
hex forms) converts to `NaN`, encoded `none`. -/
def jsNumber (token : List Char) : Option Int :=
  let t := jsTrimList token
  match t with
  | [] => some 0
  | '-' :: ds => if ds ≠ [] && ds.all Char.isDigit then some (-(digitsVal ds : Int)) else none
  | '+' :: ds => if ds ≠ [] && ds.all Char.isDigit then some (digitsVal ds : Int) else none
  | ds => if ds.all Char.isDigit then some (digitsVal ds : Int) else none

/-- NaN-propagating addition on JS numbers. -/
def jsAdd (a b : Option Int) : Option Int :=
  match a, b with
  | some x, some y => some (x + y)
  | _, _ => none

/-- NaN-propagating multiplication by a constant on JS numbers. -/
def jsMulC (a : Option Int) (k : Int) : Option Int := a.map (· * k)

/-! ## Timecode parsing (`parseTimestamp` in `TranscriptView.tsx`)

```js
const parseTimestamp = (timeStr) => {
  if (!timeStr) return 0;
  const parts = timeStr.split(':').map(Number);
  if (parts.length === 2) return parts[0] * 60 + parts[1];
  if (parts.length === 3) return parts[0] * 3600 + parts[1] * 60 + parts[2];
  return 0;
};
```
The result type is `Option Int`, with `none` standing for `NaN`. -/

def parseTimestamp (timeStr : String) : Option Int :=
  if timeStr = "" then some 0
  else
    match (splitOnColon timeStr.data).map jsNumber with
    | [a, b] => jsAdd (jsMulC a 60) b
    | [a, b, c] => jsAdd (jsAdd (jsMulC a 3600) (jsMulC b 60)) c
    | _ => some 0

/-! ## Transcript data model (`types.ts`) -/

/-- One speaker turn of the transcript (`TranscriptSegment` in `types.ts`). -/
structure TranscriptSegment where
  speaker : String
  text : String
  timestamp : String
  endTime : Option String
deriving DecidableEq, Repr

/-! ## Active-segment selection (`activeSegment` in `TranscriptView.tsx`)

```js
const activeSegment = useMemo(() => {
  if (!transcript || transcript.length === 0) return null;
  for (let i = transcript.length - 1; i >= 0; i--) {
    const time = parseTimestamp(transcript[i].timestamp);
    if (time <= currentTime) return transcript[i];
  }
  return null;
}, [transcript, currentTime]);
```
The playback time is a real number from the audio element; it is
modelled as a rational.  The JS comparison `time <= currentTime` is
false when `time` is `NaN`. -/

/-- The JS comparison `v <= t` where `v` may be `NaN`: `NaN <= t` is false. -/
def jsLe (v : Option Int) (t : ℚ) : Bool :=
  match v with
  | none => false
  | some n => (n : ℚ) ≤ t

/-- The loop body test of `activeSegment`: does this segment's parsed
start time compare `<=` to the current playback time? -/
def qualifies (t : ℚ) (s : TranscriptSegment) : Bool :=
  jsLe (parseTimestamp s.timestamp) t

/-- The downward scan of `activeSegment`: the first segment from the
last index whose parsed start time is `<=` the playback time. -/
def activeSegment (transcript : List TranscriptSegment) (currentTime : ℚ) :
    Option TranscriptSegment :=
  if transcript.length = 0 then none
  else transcript.reverse.find? (qualifies currentTime)

/-! ## Search filter (`filteredTranscript` in `TranscriptView.tsx`)

```js
const filteredTranscript = useMemo(() => {
  if (!searchQuery.trim()) return transcript;
  const query = searchQuery.toLowerCase();
  return transcript.filter(segment =>
    segment.text.toLowerCase().includes(query) ||
    segment.speaker.toLowerCase().includes(query)
  );
}, [transcript, searchQuery]);
``` -/

/-- Does a segment match the (already lower-cased) query? -/
def segmentMatches (query : String) (segment : TranscriptSegment) : Bool :=
  jsIncludes (jsToLower segment.text) query || jsIncludes (jsToLower segment.speaker) query

def filteredTranscript (transcript : List TranscriptSegment) (searchQuery : String) :
    List TranscriptSegment :=
  if jsTrim searchQuery = "" then transcript
  else transcript.filter (segmentMatches (jsToLower searchQuery))

/-! ## Search highlighting (`renderHighlightedText` in `TranscriptView.tsx`)

```js
const renderHighlightedText = (text, highlight) => {
  if (!highlight.trim()) return text;
  const escapedHighlight = highlight.replace(/[.*+?^${}()|[\]\\]/g, '\\$&');
  const regex = new RegExp(`(${escapedHighlight})`, 'gi');
  const parts = text.split(regex);
  return parts.map((part, i) =>
    part.toLowerCase() === highlight.toLowerCase() ? <mark>{part}</mark> : <span>{part}</span>);
};
```
The escape step is modelled exactly; the regular-expression machinery is
modelled by a conservative reader `regexLiteral` that recognises exactly
the patterns denoting a literal string (a sequence of non-metacharacters
and backslash-escaped characters) and rejects everything else — a
rejected pattern is one that in JS either throws on compilation or
matches as a non-literal pattern.  `text.split(regex)` with one capture
group and the `gi` flags, applied to a literal pattern, is the
case-insensitive leftmost split `highlightSplit`, whose parts alternate
between non-matching gaps and matches. -/

/-- The characters of the escaping character class `[.*+?^${}()|[\]\\]`. -/
def regexMetaChar (c : Char) : Bool :=
  c = '.' || c = '*' || c = '+' || c = '?' || c = '^' || c = '$' ||
  c = '\x7b' || c = '\x7d' || c = '(' || c = ')' || c = '|' ||
  c = '[' || c = ']' || c = '\\'

/-- Models `highlight.replace(/[.*+?^${}()|[\]\\]/g, '\\$&')`: prepend a
backslash to every metacharacter. -/
def escapeRegexList : List Char → List Char
  | [] => []
  | c :: cs =>
    if regexMetaChar c then '\\' :: c :: escapeRegexList cs
    else c :: escapeRegexList cs

/-- String form of `escapeRegexList`. -/
def escapeRegex (s : String) : String := ⟨escapeRegexList s.data⟩

/-- Conservative reader of regular-expression source: returns the
literal string a pattern denotes when it is a plain sequence of
non-metacharacters and backslash escapes, and `none` for any pattern
containing a bare metacharacter or a dangling backslash (in JS such a
pattern either fails to compile — e.g. `new RegExp("+")` throws — or
matches as a non-literal pattern). -/
def regexLiteral : List Char → Option (List Char)
  | [] => some []
  | c :: cs =>
    if c = '\\' then
      match cs with
      | [] => none
      | d :: cs' => (regexLiteral cs').map (d :: ·)
    else if regexMetaChar c then none
    else (regexLiteral cs).map (c :: ·)

/-- Is `q` a case-insensitive prefix of `t`? -/
def ciStartsWith : List Char → List Char → Bool
  | [], _ => true
  | _ :: _, [] => false
  | a :: qs, b :: ts => a.toLower == b.toLower && ciStartsWith qs ts

/-- Index of the leftmost case-insensitive occurrence of `q` in `t`. -/
def ciFind (q : List Char) : List Char → Option Nat
  | [] => if ciStartsWith q [] then some 0 else none
  | b :: ts =>
    if ciStartsWith q (b :: ts) then some 0
    else (ciFind q ts).map (· + 1)

theorem ciStartsWith_length_le :
    ∀ q t : List Char, ciStartsWith q t = true → q.length ≤ t.length := by
  intro q
  induction q with
  | nil => intro t _; exact Nat.zero_le _
  | cons a qs ih =>
    intro t h
    cases t with
    | nil => simp [ciStartsWith] at h
    | cons b ts =>
      simp only [ciStartsWith, Bool.and_eq_true] at h
      simpa [List.length_cons, Nat.succ_le_succ_iff] using ih ts h.2

theorem ciFind_le {q : List Char} :
    ∀ {t : List Char} {i : Nat}, ciFind q t = some i → i + q.length ≤ t.length := by
  intro t
  induction t with
  | nil =>
    intro i h
    by_cases hs : ciStartsWith q [] = true
    · simp [ciFind, hs] at h
      subst h
      simpa using ciStartsWith_length_le q [] hs
    · simp [ciFind, hs] at h
  | cons b ts ih =>
    intro i h
    by_cases hs : ciStartsWith q (b :: ts) = true
    · simp [ciFind, hs] at h
      subst h
      simpa using ciStartsWith_length_le q (b :: ts) hs
    · simp [ciFind, hs] at h
      obtain ⟨j, hj, rfl⟩ := h
      have := ih hj
      simpa [List.length_cons, Nat.add_right_comm] using Nat.add_le_add_right this 1

/-- The capturing split `text.split(/(q)/gi)` for a literal pattern `q`:
the part before the leftmost case-insensitive match, the match itself,
and recursively the split of the remainder.  Each step consumes at least
`q.length ≥ 1` characters, so `t.length` steps of fuel always suffice;
the fuel only makes the recursion structural. -/
def highlightSplitAux (q : List Char) : Nat → List Char → List (List Char)
  | 0, t => [t]
  | fuel + 1, t =>
    if q = [] then [t]
    else
      match ciFind q t with
      | none => [t]
      | some i =>
        t.take i :: (t.drop i).take q.length ::
          highlightSplitAux q fuel (t.drop (i + q.length))

def highlightSplit (q t : List Char) : List (List Char) :=
  highlightSplitAux q t.length t

/-- The rendering model: the list of text parts in order, each paired
with whether it is wrapped in the highlight mark (the source marks a
part exactly when `part.toLowerCase() === highlight.toLowerCase()`). -/
def renderHighlightedText (text highlight : String) : List (String × Bool) :=
  if jsTrim highlight = "" then [(text, false)]
  else
    (highlightSplit highlight.data text.data).map
      (fun p => (⟨p⟩, jsToLowerList p == jsToLowerList highlight.data))

/-- Concatenation of the rendered parts. -/
def renderedParts (parts : List (String × Bool)) : String :=
  ⟨(parts.map (fun p => p.1.data)).flatten⟩

/-! ## Analysis result data model (`types.ts`) -/

inductive CallType
  | discovery | demo | negotiation | closing | renewal | other
deriving DecidableEq, Repr

structure SentimentPoint where
  timePoint : String
  score : Int
  context : String
deriving DecidableEq, Repr

structure CoachingData where
  strengths : List String
  improvements : List String
deriving DecidableEq, Repr

inductive ObjectionType
  | price | timing | authority | need | competitor | other
deriving DecidableEq, Repr

inductive RebuttalQuality
  | strong | weak | missed
deriving DecidableEq, Repr

structure Objection where
  type : ObjectionType
  quote : String
  timestamp : String
  rebuttalQuality : RebuttalQuality
  suggestedRebuttal : Option String
deriving DecidableEq, Repr

structure SalesMetrics where
  talkRatio : Int
  questionCount : Int
  fillerWordCount : Int
  longestMonologue : Int
  buyingSignals : List String
  riskSignals : List String
deriving DecidableEq, Repr

inductive RiskLevel
  | low | medium | high | critical
deriving DecidableEq, Repr

structure RiskAssessment where
  score : Int
  level : RiskLevel
  reasons : List String
  dealBreakers : List String
deriving DecidableEq, Repr

structure NextSteps where
  primary : String
  timeline : String
  secondary : List String
  followUpEmail : String
deriving DecidableEq, Repr

structure AnalysisResult where
  transcript : List TranscriptSegment
  sentiment : List SentimentPoint
  coaching : CoachingData
  summary : String
  topics : List String
  callType : CallType
  riskAssessment : RiskAssessment
  objections : List Objection
  salesMetrics : SalesMetrics
  nextSteps : NextSteps
  verdict : String
deriving DecidableEq, Repr

inductive AppState
  | IDLE | UPLOADING | ANALYZING | SUCCESS | ERROR
deriving DecidableEq, Repr

/-! ## Files, fingerprints and the in-memory cache (`App` cache variant)

The source keeps `analysisCache` in a `Map` keyed by
`` `${CACHE_VERSION}-${file.name}-${file.size}-${file.lastModified}` ``.
A JS `Map` is modelled as an insertion-ordered association list:
`mapSet` overwrites the existing binding in place or appends. -/

structure File where
  name : String
  size : Nat
  lastModified : Nat
  type : String
deriving DecidableEq, Repr

def CACHE_VERSION : String := "v2"

/-- The upload fingerprint used as the cache key. -/
def fileCacheKey (f : File) : String :=
  CACHE_VERSION ++ "-" ++ f.name ++ "-" ++ toString f.size ++ "-" ++ toString f.lastModified

structure CachedAnalysis where
  result : AnalysisResult
  duration : String
  file : File
  timestamp : Nat
deriving DecidableEq, Repr

structure RecentUpload where
  fileName : String
  duration : String
  timestamp : Nat
  cacheKey : String
deriving DecidableEq, Repr

/-- `Map.prototype.get`. -/
def mapGet {α : Type} (m : List (String × α)) (k : String) : Option α :=
  match m with
  | [] => none
  | p :: ps => if p.1 = k then some p.2 else mapGet ps k

/-- `Map.prototype.set`: replace the binding in place, or append. -/
def mapSet {α : Type} (m : List (String × α)) (k : String) (v : α) : List (String × α) :=
  match m with
  | [] => [(k, v)]
  | p :: ps => if p.1 = k then (k, v) :: ps else p :: mapSet ps k v

/-!
```js
const addToRecentUploads = (key, name, dur) => {
  setRecentUploads(prev => {
    if (prev.some(item => item.cacheKey === key)) return prev;
    return [{ fileName: name, duration: dur, timestamp: Date.now(), cacheKey: key }, ...prev];
  });
};
``` -/
def addToRecentUploads (prev : List RecentUpload) (key name dur : String) (now : Nat) :
    List RecentUpload :=
  if prev.any (fun item => item.cacheKey = key) then prev
  else ⟨name, dur, now, key⟩ :: prev

/-! ## The cache-variant `App` controller

State fields mirror the `useState`/`useRef` hooks of the component;
playable-resource handles (object URLs) are numbered by a counter, with
`revoked` recording every `URL.revokeObjectURL` call in order.  The
outcomes of the awaited operations (`fileToBase64`/`getAudioDuration`
joined by `Promise.all`, and `analyzeSalesCall`) are passed in as
parameters, as are `URL.createObjectURL` success and `Date.now()`. -/

structure CState where
  appState : AppState
  analysisData : Option AnalysisResult
  errorMsg : Option String
  fileName : String
  duration : String
  audioUrl : Option Nat
  recentUploads : List RecentUpload
  analysisCache : List (String × CachedAnalysis)
  isShareOpen : Bool
  showToast : Bool
  nextUrl : Nat
  revoked : List Nat
  analysisCalls : Nat
deriving DecidableEq, Repr

def cInit : CState :=
  { appState := .IDLE, analysisData := none, errorMsg := none,
    fileName := "", duration := "", audioUrl := none,
    recentUploads := [], analysisCache := [],
    isShareOpen := false, showToast := false,
    nextUrl := 0, revoked := [], analysisCalls := 0 }

/-- Outcome of `Promise.all([fileToBase64(file), getAudioDuration(file)])`:
the pair of results, or the first rejection with its `e.message`. -/
inductive EncOutcome
  | ok (base64 : String) (duration : String)
  | err (msg : Option String)
deriving DecidableEq, Repr

/-- Outcome of `analyzeSalesCall`: the parsed result, or a rejection
carrying `e.message` (`none` when the thrown value has no message). -/
inductive AnaOutcome
  | ok (result : AnalysisResult)
  | err (msg : Option String)
deriving DecidableEq, Repr

/-- The JS idiom `a || b` on an optional string: empty and absent are falsy. -/
def jsOrStr (a : Option String) (b : String) : String :=
  match a with
  | some m => if m = "" then b else m
  | none => b

/-- The `catch` clause around `analyzeSalesCall` in the cache variant:
map the provider error message to a user-facing message. -/
def mapGeminiError (msg : Option String) : String :=
  let m := jsOrStr msg ""
  if jsIncludes m "400" then "The audio format is not supported by the AI model."
  else if jsIncludes m "413" then "The audio file is too large to be processed."
  else if jsIncludes m "429" then "Too many requests. Please wait a moment and try again."
  else if jsIncludes m "Candidate was blocked" then
    "Analysis blocked by safety filters. Content may be inappropriate."
  else "AI analysis failed to generate a response. Please try again."

/-- `handleFileSelect` of the cache variant, one invocation run to
completion with the given operation outcomes. -/
def handleFileSelect (s : CState) (f : File) (urlOk : Bool)
    (enc : EncOutcome) (ana : AnaOutcome) (now : Nat) : CState :=
  let s := { s with appState := .UPLOADING, errorMsg := none, fileName := f.name }
  if urlOk then
    let u := s.nextUrl
    let s := { s with nextUrl := u + 1, audioUrl := some u }
    let key := fileCacheKey f
    match mapGet s.analysisCache key with
    | some cached =>
      let s := { s with duration := cached.duration,
                        analysisData := some cached.result,
                        appState := .SUCCESS }
      let recentAfter := addToRecentUploads s.recentUploads key f.name cached.duration now
      { s with recentUploads := recentAfter }
    | none =>
      match enc with
      | .err _ =>
        { s with appState := .ERROR,
                 errorMsg := some "Unable to process the audio file. It might be corrupted or in an unsupported format.",
                 revoked := s.revoked ++ [u], audioUrl := none }
      | .ok _base64 dur =>
        let s := { s with duration := dur, appState := .ANALYZING }
        let s := { s with analysisCalls := s.analysisCalls + 1 }
        match ana with
        | .err msg =>
          { s with appState := .ERROR,
                   errorMsg := some (mapGeminiError msg),
                   revoked := s.revoked ++ [u], audioUrl := none }
        | .ok result =>
          let cacheAfter := mapSet s.analysisCache key ⟨result, dur, f, now⟩
          let s := { s with analysisCache := cacheAfter }
          let recentAfter := addToRecentUploads s.recentUploads key f.name dur now
          let s := { s with recentUploads := recentAfter }
          { s with analysisData := some result, appState := .SUCCESS }
  else
    { s with appState := .ERROR,
             errorMsg := some "Failed to initialize audio player. Your browser may not support this file type." }

/-- `handleReset` of the cache variant. -/
def handleReset (s : CState) : CState :=
  let s := match s.audioUrl with
    | some u => { s with revoked := s.revoked ++ [u] }
    | none => s
  { s with audioUrl := none, appState := .IDLE, analysisData := none,
           fileName := "", duration := "", errorMsg := none, isShareOpen := false }

/-- `handleRecentSelect` of the cache variant: restore a cached session,
recreating a playable-resource handle for its stored file. -/
def handleRecentSelect (s : CState) (key : String) (urlOk : Bool) : CState :=
  match mapGet s.analysisCache key with
  | none => s
  | some cached =>
    let s := { s with appState := .UPLOADING }
    if urlOk then
      let u := s.nextUrl
      { s with nextUrl := u + 1, audioUrl := some u,
               fileName := cached.file.name, duration := cached.duration,
               analysisData := some cached.result, appState := .SUCCESS }
    else
      { s with appState := .IDLE,
               errorMsg := some "Could not restore previous session. Please upload the file again." }

/-- The user-triggerable events, with the outcomes of the awaited
operations attached. -/
inductive CEvent
  | select (f : File) (urlOk : Bool) (enc : EncOutcome) (ana : AnaOutcome) (now : Nat)
  | reset
  | recent (key : String) (urlOk : Bool)

/-- One UI step: the `FileUpload` control is rendered with
`disabled={appState !== IDLE && appState !== ERROR}` and the recent list
only on the same screen, and the reset button only in `SUCCESS`, so the
corresponding handlers fire only in those states. -/
def cStep (s : CState) (e : CEvent) : CState :=
  match e with
  | .select f urlOk enc ana now =>
    if s.appState = .IDLE ∨ s.appState = .ERROR then
      handleFileSelect s f urlOk enc ana now
    else s
  | .reset => if s.appState = .SUCCESS then handleReset s else s
  | .recent key urlOk =>
    if s.appState = .IDLE ∨ s.appState = .ERROR then
      handleRecentSelect s key urlOk
    else s

/-- States reachable from the initial state by UI steps. -/
inductive CReachable : CState → Prop
  | init : CReachable cInit
  | step {s : CState} (e : CEvent) : CReachable s → CReachable (cStep s e)

/-! ## The persisted (Supabase) `App` variant

Handles are `UrlRef.blob` (object URLs, numbered) or `UrlRef.remote`
(the storage public URL); `URL.revokeObjectURL` only has an effect on
blob handles.  `URL.createObjectURL` is modelled as succeeding, and the
storage public URL (`getPublicUrl`), the inserted row and the refreshed
history are oracle parameters. -/

inductive UrlRef
  | blob (id : Nat)
  | remote (url : String)
deriving DecidableEq, Repr

structure DbCall where
  id : String
  userId : String
  fileName : String
  duration : String
  analysisResult : AnalysisResult
  verdict : String
  riskScore : Int
  callType : CallType
  audioUrl : String
deriving DecidableEq, Repr

structure SupaState where
  user : Option String
  appState : AppState
  analysisData : Option AnalysisResult
  errorMsg : Option String
  fileName : String
  duration : String
  audioUrl : Option UrlRef
  recentUploads : List DbCall
  toastMessage : Option String
  isShareOpen : Bool
  nextBlob : Nat
  revokedBlobs : List Nat
  analysisCalls : Nat
deriving DecidableEq, Repr

def supaInit (user : Option String) : SupaState :=
  { user := user, appState := .IDLE, analysisData := none, errorMsg := none,
    fileName := "", duration := "", audioUrl := none, recentUploads := [],
    toastMessage := none, isShareOpen := false,
    nextBlob := 0, revokedBlobs := [], analysisCalls := 0 }

/-- Revoke a handle: only object URLs are recorded; revoking the remote
public URL is a no-op of `URL.revokeObjectURL`. -/
def supaRevoke (s : SupaState) (u : UrlRef) : SupaState :=
  match u with
  | .blob b => { s with revokedBlobs := s.revokedBlobs ++ [b] }
  | .remote _ => s

/-- `handleFileSelect` of the persisted variant (`App.tsx`): signed-out
users return immediately; a storage-upload error only sets a toast and
the pipeline continues; a database-insert error is thrown and caught,
revoking the local handle and entering `ERROR` (the handle stays bound);
on full success the audio reference is switched to the storage public
URL without revoking the local handle, and the history is refetched. -/
def supaHandleFileSelect (s : SupaState) (f : File) (enc : EncOutcome)
    (storageErr : Option String) (ana : AnaOutcome)
    (db : Except String DbCall) (pubUrl : String) (hist : List DbCall) : SupaState :=
  match s.user with
  | none => s
  | some _ =>
    let s := { s with appState := .UPLOADING, errorMsg := none, fileName := f.name }
    let b := s.nextBlob
    let s := { s with nextBlob := b + 1, audioUrl := some (UrlRef.blob b) }
    match enc with
    | .err msg =>
      { s with appState := .ERROR,
               errorMsg := some (jsOrStr msg "Something went wrong. Please try again."),
               revokedBlobs := s.revokedBlobs ++ [b] }
    | .ok _base64 dur =>
      let s := { s with duration := dur, appState := .ANALYZING }
      let s := match storageErr with
        | some m =>
          if jsIncludes m "Bucket not found" then
            { s with toastMessage := some "⚠️ Supabase Storage: \x27calls\x27 bucket not found. Please create it in the dashboard." }
          else
            { s with toastMessage := some "⚠️ Storage upload failed. Using local audio link." }
        | none => s
      let s := { s with analysisCalls := s.analysisCalls + 1 }
      match ana with
      | .err msg =>
        { s with appState := .ERROR,
                 errorMsg := some (jsOrStr msg "Something went wrong. Please try again."),
                 revokedBlobs := s.revokedBlobs ++ [b] }
      | .ok result =>
        match db with
        | .error m =>
          { s with appState := .ERROR,
                   errorMsg := some (jsOrStr (some m) "Something went wrong. Please try again."),
                   revokedBlobs := s.revokedBlobs ++ [b] }
        | .ok _row =>
          { s with analysisData := some result,
                   audioUrl := some (UrlRef.remote pubUrl),
                   appState := .SUCCESS,
                   recentUploads := hist }

/-- `handleReset` of the persisted variant. -/
def supaHandleReset (s : SupaState) : SupaState :=
  let s := match s.audioUrl with
    | some u => supaRevoke s u
    | none => s
  { s with audioUrl := none, appState := .IDLE, analysisData := none,
           fileName := "", duration := "", errorMsg := none, isShareOpen := false }

/-! ## Lazy AI-client initialization (`getAIClient`)

```js
let ai = null;
const getAIClient = () => {
  if (!ai) {
    const apiKey = process.env.API_KEY || process.env.GEMINI_API_KEY;
    if (!apiKey) throw new Error("Missing API Key: ...");
    ai = new GoogleGenAI({ apiKey });
  }
  return ai;
};
```
`analyzeSalesCall` first obtains the client, then issues one
`generateContent` request; the request body/response handling is an
oracle.  The trace records how many provider requests were issued. -/

structure Env where
  apiKeyVar : Option String
  geminiApiKeyVar : Option String
deriving DecidableEq, Repr

/-- JS falsiness of an environment string: absent or empty. -/
def jsFalsy (v : Option String) : Bool := v = none || v = some ""

/-- The JS idiom `a || b` on two optional strings. -/
def jsOrEnv (a b : Option String) : Option String := if jsFalsy a then b else a

structure AIClient where
  apiKey : String
deriving DecidableEq, Repr

def missingKeyMsg : String :=
  "Missing API Key: Please create a .env.local file with GEMINI_API_KEY=your_key_here"

def getAIClient (env : Env) (ai : Option AIClient) : Except String AIClient :=
  match ai with
  | some c => .ok c
  | none =>
    let apiKey := jsOrEnv env.apiKeyVar env.geminiApiKeyVar
    if jsFalsy apiKey then .error missingKeyMsg
    else .ok ⟨apiKey.getD ""⟩

structure AnalyzeTrace where
  result : Except String AnalysisResult
  requestsIssued : Nat
  aiAfter : Option AIClient
deriving Repr

/-- `analyzeSalesCall` of the lazy-initialization service: obtain the
client (possibly failing before any request), then issue exactly one
provider request whose outcome — including response-text absence and
JSON parsing — is the oracle `provider`. -/
def analyzeSalesCallService (env : Env) (ai : Option AIClient)
    (provider : AIClient → Except String AnalysisResult) : AnalyzeTrace :=
  match getAIClient env ai with
  | .error m => ⟨.error m, 0, ai⟩
  | .ok c => ⟨provider c, 1, some c⟩

/-! ## Resource invariant of the cache variant

Every state reachable through the UI keeps: no handle bound on the
upload screen (`IDLE`/`ERROR`), every bound or revoked handle below the
allocation counter, the bound handle unrevoked, and no handle revoked
twice. -/

def CInv (s : CState) : Prop :=
  ((s.appState = .IDLE ∨ s.appState = .ERROR) → s.audioUrl = none) ∧
  (∀ u, s.audioUrl = some u → u < s.nextUrl ∧ u ∉ s.revoked) ∧
  (∀ u ∈ s.revoked, u < s.nextUrl) ∧
  s.revoked.Nodup

/-! ## Concrete sample values used by the witnesses -/

def segA : TranscriptSegment :=
  ⟨"Salesperson", "Hello, thanks for joining", "00:05", none⟩

def segB : TranscriptSegment :=
  ⟨"Prospect", "The PRICE seems high to me", "00:10", some "00:20"⟩

def sampleResult : AnalysisResult :=
  { transcript := [segA, segB],
    sentiment := [⟨"00:05", 60, "warm opening"⟩],
    coaching := ⟨["opened well"], ["qualify budget"]⟩,
    summary := "A discovery call.",
    topics := ["price"],
    callType := .discovery,
    riskAssessment := ⟨7, .medium, ["price concern"], []⟩,
    objections := [⟨.price, "The PRICE seems high to me", "00:10", .weak, some "anchor on value"⟩],
    salesMetrics := ⟨35, 6, 4, 40, ["asked about onboarding"], ["budget is tight"]⟩,
    nextSteps := ⟨"Send ROI case study", "Within 24 hours", ["book demo"], "Hi, thanks for the call."⟩,
    verdict := "Strong discovery but missed budget qualification" }

def fSample : File := ⟨"call.wav", 10485760, 1700000000000, "audio/wav"⟩

def sampleRow : DbCall :=
  ⟨"row1", "u1", "call.wav", "3m 20s", sampleResult,
   sampleResult.verdict, 7, .discovery, "https://pub/a.wav"⟩

/-! # Theorems -/

/-! ## C2: timecode parsing -/

/-- C2 counterexample: the claim says any non-numeric token yields 0,
but a two-part input with non-numeric tokens multiplies and adds `NaN`
(`Number("a") = NaN`), so `parseTimestamp("a:b")` is `NaN`, not 0. -/
theorem C2_counterexample : parseTimestamp "a:b" ≠ some 0 := by decide

/-- C2 (amended): splitting on `:`, exactly two numeric parts give
minutes*60+seconds and exactly three give hours*3600+minutes*60+seconds;
a two- or three-part input containing a non-numeric token yields `NaN`
(propagated through the arithmetic), not 0; 0 is returned for the empty
string and for any other part count; the four quoted examples hold. -/
theorem C2_parse_timecode :
    (parseTimestamp "05:30" = some 330 ∧ parseTimestamp "1:02:03" = some 3723 ∧
     parseTimestamp "" = some 0 ∧ parseTimestamp "abc" = some 0) ∧
    (∀ (s : String) (a b : List Char), s ≠ "" → splitOnColon s.data = [a, b] →
      parseTimestamp s = jsAdd (jsMulC (jsNumber a) 60) (jsNumber b)) ∧
    (∀ (s : String) (a b c : List Char), s ≠ "" → splitOnColon s.data = [a, b, c] →
      parseTimestamp s =
        jsAdd (jsAdd (jsMulC (jsNumber a) 3600) (jsMulC (jsNumber b) 60)) (jsNumber c)) ∧
    (∀ s : String, s ≠ "" → (splitOnColon s.data).length ≠ 2 →
      (splitOnColon s.data).length ≠ 3 → parseTimestamp s = some 0) ∧
    (∀ (s : String) (a b : List Char) (m n : Int), s ≠ "" →
      splitOnColon s.data = [a, b] → jsNumber a = some m → jsNumber b = some n →
      parseTimestamp s = some (m * 60 + n)) := by
  refine ⟨⟨by decide, by decide, by decide, by decide⟩, ?_, ?_, ?_, ?_⟩
  · intro s a b hs hsplit
    unfold parseTimestamp
    rw [if_neg hs, hsplit]
    rfl
  · intro s a b c hs hsplit
    unfold parseTimestamp
    rw [if_neg hs, hsplit]
    rfl
  · intro s hs h2 h3
    unfold parseTimestamp
    rw [if_neg hs]
    rcases hl : splitOnColon s.data with _ | ⟨a, _ | ⟨b, _ | ⟨c, _ | ⟨d, rest⟩⟩⟩⟩
    · rfl
    · rfl
    · rw [hl] at h2; simp at h2
    · rw [hl] at h3; simp at h3
    · rfl
  · intro s a b m n hs hsplit ha hb
    unfold parseTimestamp
    rw [if_neg hs, hsplit]
    simp [jsAdd, jsMulC, ha, hb]

/-- C2 witness: the amended theorem evaluated at `"05:30"` and at
`"7:08"` with both tokens numeric. -/
theorem C2_parse_timecode_witness :
    parseTimestamp "05:30" = some 330 ∧ parseTimestamp "7:08" = some (7 * 60 + 8) := by
  refine ⟨C2_parse_timecode.1.1, ?_⟩
  exact C2_parse_timecode.2.2.2.2 "7:08" ['7'] ['0', '8'] 7 8
    (by decide) (by decide) (by decide) (by decide)

/-! ## C3: active-segment selection -/

theorem list_find?_append {α : Type} (p : α → Bool) (l₁ l₂ : List α) :
    (l₁ ++ l₂).find? p = ((l₁.find? p).orElse (fun _ => l₂.find? p)) := by
  induction l₁ with
  | nil => simp [Option.orElse]
  | cons a t ih =>
    by_cases h : p a
    · simp [List.find?_cons_of_pos _ h, Option.orElse]
    · simp [List.find?_cons_of_neg _ h, ih]

theorem activeSegment_none_of_all_fail (ts : List TranscriptSegment) (t : ℚ)
    (h : ∀ s ∈ ts, qualifies t s = false) : activeSegment ts t = none := by
  unfold activeSegment
  by_cases hlen : ts.length = 0
  · simp [hlen]
  · rw [if_neg hlen]
    rw [List.find?_eq_none]
    intro x hx
    simp [h x (List.mem_reverse.mp hx)]

theorem activeSegment_from_end (l₁ : List TranscriptSegment) (x : TranscriptSegment)
    (l₂ : List TranscriptSegment) (t : ℚ) (hx : qualifies t x = true)
    (h₂ : ∀ y ∈ l₂, qualifies t y = false) :
    activeSegment (l₁ ++ x :: l₂) t = some x := by
  unfold activeSegment
  rw [if_neg (by simp)]
  rw [List.reverse_append, List.reverse_cons, List.append_assoc,
    list_find?_append]
  have hnone : l₂.reverse.find? (qualifies t) = none := by
    rw [List.find?_eq_none]
    intro y hy
    simp [h₂ y (List.mem_reverse.mp hy)]
  rw [hnone]
  simp [List.find?_cons_of_pos _ hx, Option.orElse]

/-- C3: the scan runs from the last index downward and returns the
first segment whose parsed start time compares `<=` to the playback
time; an empty transcript or no qualifying segment yields `none`; for a
non-empty transcript whose start times all parse and are sorted
ascending, a playback time strictly before the first start yields
`none`, and one at or after the last start yields the last segment. -/
theorem C3_active_segment :
    (∀ t : ℚ, activeSegment [] t = none) ∧
    (∀ (ts : List TranscriptSegment) (t : ℚ),
      (∀ s ∈ ts, qualifies t s = false) → activeSegment ts t = none) ∧
    (∀ (l₁ : List TranscriptSegment) (x : TranscriptSegment)
       (l₂ : List TranscriptSegment) (t : ℚ),
      qualifies t x = true → (∀ y ∈ l₂, qualifies t y = false) →
      activeSegment (l₁ ++ x :: l₂) t = some x) ∧
    (∀ (ts : List TranscriptSegment) (t : ℚ) (vals : List Int),
      ts ≠ [] →
      ts.map (fun s => parseTimestamp s.timestamp) = vals.map some →
      vals.Sorted (· ≤ ·) →
      (∀ v0 : Int, vals.head? = some v0 → t < (v0 : ℚ) → activeSegment ts t = none) ∧
      (∀ vl : Int, vals.getLast? = some vl → (vl : ℚ) ≤ t →
        activeSegment ts t = ts.getLast?)) := by
  refine ⟨fun t => by simp [activeSegment], activeSegment_none_of_all_fail,
    activeSegment_from_end, ?_⟩
  intro ts t vals hne hmap hsorted
  constructor
  · intro v0 hv0 ht
    apply activeSegment_none_of_all_fail
    intro s hs
    have hmem : parseTimestamp s.timestamp ∈ vals.map some := by
      rw [← hmap]
      exact List.mem_map_of_mem _ hs
    obtain ⟨v, hv, hveq⟩ := List.mem_map.mp hmem
    have hle : v0 ≤ v := by
      cases vals with
      | nil => simp at hv0
      | cons w ws =>
        have hw : w = v0 := by simpa using hv0
        subst hw
        cases hv with
        | head => exact le_refl _
        | tail _ hv => exact (List.pairwise_cons.mp hsorted).1 v hv
    have htv : t < (v : ℚ) := lt_of_lt_of_le ht (by exact_mod_cast hle)
    simp [qualifies, ← hveq, jsLe, not_le.mpr htv]
  · intro vl hvl ht
    obtain hts | ⟨l₁, x, hts⟩ := ts.eq_nil_or_concat
    · exact absurd hts hne
    · rw [List.concat_eq_append] at hts
      subst hts
      obtain hvs | ⟨vs, vlast, hvs⟩ := vals.eq_nil_or_concat
      · rw [hvs] at hvl; simp at hvl
      · rw [List.concat_eq_append] at hvs
        subst hvs
        have hvl' : vlast = vl := by
          rw [List.getLast?_concat] at hvl
          simpa using hvl
        have hxval : parseTimestamp x.timestamp = some vlast := by
          have hg := congrArg List.getLast? hmap
          rw [List.map_append, List.map_append] at hg
          simp only [List.map_cons, List.map_nil] at hg
          rw [List.getLast?_concat, List.getLast?_concat] at hg
          simpa using hg
        have hq : qualifies t x = true := by
          rw [hvl'] at hxval
          simp [qualifies, hxval, jsLe, ht]
        rw [activeSegment_from_end l₁ x [] t hq (by simp)]
        rw [List.getLast?_concat]

/-- C3 witness: the sorted-consequence parts evaluated on a concrete
two-segment transcript. -/
theorem C3_active_segment_witness :
    activeSegment [segA, segB] 100 = [segA, segB].getLast? ∧
    activeSegment [segA, segB] 2 = none := by
  have h := C3_active_segment.2.2.2 [segA, segB] 100 [5, 10]
    (by decide) (by decide) (by decide)
  have h' := C3_active_segment.2.2.2 [segA, segB] 2 [5, 10]
    (by decide) (by decide) (by decide)
  exact ⟨h.2 10 (by decide) (by norm_num), h'.1 5 (by decide) (by norm_num)⟩

/-! ## C4: transcript search -/

/-- C4: an empty or whitespace-only query returns the very input
sequence; the result is always a sublist of the input (original
relative order, no reordering); and for a non-empty query the result
keeps exactly the segments whose lower-cased text or speaker contains
the lower-cased query as a substring. -/
theorem C4_search_filter :
    (∀ (ts : List TranscriptSegment) (q : String),
      jsTrim q = "" → filteredTranscript ts q = ts) ∧
    (∀ (ts : List TranscriptSegment) (q : String),
      List.Sublist (filteredTranscript ts q) ts) ∧
    (∀ (ts : List TranscriptSegment) (q : String) (s : TranscriptSegment),
      jsTrim q ≠ "" →
      (s ∈ filteredTranscript ts q ↔ s ∈ ts ∧
        (jsIncludes (jsToLower s.text) (jsToLower q) ||
         jsIncludes (jsToLower s.speaker) (jsToLower q)) = true)) := by
  refine ⟨?_, ?_, ?_⟩
  · intro ts q h
    simp [filteredTranscript, h]
  · intro ts q
    unfold filteredTranscript
    by_cases h : jsTrim q = ""
    · simp [h]
    · simp only [if_neg h]
      exact List.filter_sublist ts
  · intro ts q s h
    simp [filteredTranscript, h, List.mem_filter, segmentMatches]

/-- C4 witness: a whitespace-only query is the identity on a concrete
transcript, and the upper-case query `"PRICE"` keeps the segment whose
text contains `"PRICE"` case-insensitively. -/
theorem C4_search_filter_witness :
    filteredTranscript [segA, segB] "  " = [segA, segB] ∧
    segB ∈ filteredTranscript [segA, segB] "PRICE" ∧
    ¬ segA ∈ filteredTranscript [segA, segB] "PRICE" := by
  refine ⟨C4_search_filter.1 [segA, segB] "  " (by decide), ?_, ?_⟩
  · exact (C4_search_filter.2.2 [segA, segB] "PRICE" segB (by decide)).mpr
      ⟨by simp, by decide⟩
  · intro hmem
    have h := (C4_search_filter.2.2 [segA, segB] "PRICE" segA (by decide)).mp hmem
    revert h
    decide

/-! ## C5: regex escaping and highlighting -/

theorem regexLiteral_escape : ∀ cs : List Char,
    regexLiteral (escapeRegexList cs) = some cs := by
  intro cs
  induction cs with
  | nil => rfl
  | cons c cs ih =>
    by_cases h : regexMetaChar c = true
    · simp [escapeRegexList, h, regexLiteral, ih]
    · have hc : ¬ c = '\\' := by
        intro hc'
        subst hc'
        simp [regexMetaChar] at h
      simp only [escapeRegexList, if_neg h]
      rw [regexLiteral.eq_def]
      simp [hc, h, ih]

theorem ciStartsWith_toLower_take : ∀ (q t : List Char),
    ciStartsWith q t = true →
    (t.take q.length).map Char.toLower = q.map Char.toLower := by
  intro q
  induction q with
  | nil => intro t _; simp
  | cons a qs ih =>
    intro t h
    cases t with
    | nil => simp [ciStartsWith] at h
    | cons b ts =>
      simp only [ciStartsWith, Bool.and_eq_true, beq_iff_eq] at h
      simp [List.take_cons, h.1, ih ts h.2]

theorem ciStartsWith_of_take : ∀ (q : List Char) (m : Nat) (l : List Char),
    ciStartsWith q (l.take m) = true → ciStartsWith q l = true := by
  intro q
  induction q with
  | nil => intro m l _; rfl
  | cons a qs ih =>
    intro m l h
    cases l with
    | nil => simp at h; simp [ciStartsWith] at h
    | cons b ls =>
      cases m with
      | zero => simp [ciStartsWith] at h
      | succ m =>
        simp only [List.take_succ_cons, ciStartsWith, Bool.and_eq_true] at h ⊢
        exact ⟨h.1, ih m ls h.2⟩

theorem ciFind_none_no_match (q : List Char) : ∀ (t : List Char),
    ciFind q t = none → ∀ j, ciStartsWith q (t.drop j) = false := by
  intro t
  induction t with
  | nil =>
    intro h j
    by_cases hs : ciStartsWith q [] = true
    · simp [ciFind, hs] at h
    · simpa [List.drop_nil] using Bool.eq_false_iff.mpr hs
  | cons b ts ih =>
    intro h j
    by_cases hs : ciStartsWith q (b :: ts) = true
    · simp [ciFind, hs] at h
    · have hrest : ciFind q ts = none := by
        by_contra hne
        obtain ⟨i, hi⟩ := Option.ne_none_iff_exists'.mp hne
        simp [ciFind, hs, hi] at h
      cases j with
      | zero => simpa using Bool.eq_false_iff.mpr hs
      | succ j => simpa using ih hrest j

theorem ciFind_some_match (q : List Char) : ∀ (t : List Char) (i : Nat),
    ciFind q t = some i → ciStartsWith q (t.drop i) = true := by
  intro t
  induction t with
  | nil =>
    intro i h
    by_cases hs : ciStartsWith q [] = true
    · simp [ciFind, hs] at h
      subst h
      simpa using hs
    · simp [ciFind, hs] at h
  | cons b ts ih =>
    intro i h
    by_cases hs : ciStartsWith q (b :: ts) = true
    · simp [ciFind, hs] at h
      subst h
      simpa using hs
    · simp [ciFind, hs] at h
      obtain ⟨j, hj, rfl⟩ := h
      simpa using ih j hj

theorem ciFind_some_leftmost (q : List Char) : ∀ (t : List Char) (i : Nat),
    ciFind q t = some i → ∀ j, j < i → ciStartsWith q (t.drop j) = false := by
  intro t
  induction t with
  | nil =>
    intro i h j hj
    by_cases hs : ciStartsWith q [] = true
    · simp [ciFind, hs] at h
      omega
    · simp [ciFind, hs] at h
  | cons b ts ih =>
    intro i h j hj
    by_cases hs : ciStartsWith q (b :: ts) = true
    · simp [ciFind, hs] at h
      omega
    · simp [ciFind, hs] at h
      obtain ⟨i', hi', rfl⟩ := h
      cases j with
      | zero => simpa using Bool.eq_false_iff.mpr hs
      | succ j => simpa using ih i' hi' j (by omega)

theorem highlightSplitAux_flatten (q : List Char) (hq : q ≠ []) :
    ∀ (fuel : Nat) (t : List Char), t.length ≤ fuel →
      (highlightSplitAux q fuel t).flatten = t := by
  intro fuel
  induction fuel with
  | zero => intro t _; simp [highlightSplitAux]
  | succ fuel ih =>
    intro t ht
    rw [highlightSplitAux, if_neg hq]
    cases hfind : ciFind q t with
    | none => simp
    | some i =>
      have hle : i + q.length ≤ t.length := ciFind_le hfind
      have hqpos : 0 < q.length := List.length_pos.mpr hq
      have hrec := ih (t.drop (i + q.length)) (by simp only [List.length_drop]; omega)
      simp only [List.flatten_cons, hrec]
      have hdd : t.drop (i + q.length) = (t.drop i).drop q.length := by
        rw [List.drop_drop]
      rw [hdd, List.take_append_drop, List.take_append_drop]

theorem highlightSplitAux_parts (q : List Char) (hq : q ≠ []) :
    ∀ (fuel : Nat) (t : List Char), t.length ≤ fuel →
      ∀ p ∈ highlightSplitAux q fuel t,
        jsToLowerList p = jsToLowerList q ∨
        (∀ j, ciStartsWith q (p.drop j) = false) := by
  intro fuel
  induction fuel with
  | zero =>
    intro t ht p hp
    have ht0 : t = [] := List.length_eq_zero.mp (Nat.le_zero.mp ht)
    subst ht0
    simp [highlightSplitAux] at hp
    subst hp
    right
    intro j
    simp only [List.drop_nil]
    cases q with
    | nil => exact absurd rfl hq
    | cons a qs => rfl
  | succ fuel ih =>
    intro t ht p hp
    rw [highlightSplitAux, if_neg hq] at hp
    cases hfind : ciFind q t with
    | none =>
      rw [hfind] at hp
      simp at hp
      subst hp
      exact Or.inr (ciFind_none_no_match _ _ hfind)
    | some i =>
      rw [hfind] at hp
      have hle : i + q.length ≤ t.length := ciFind_le hfind
      have hqpos : 0 < q.length := List.length_pos.mpr hq
      simp only [List.mem_cons] at hp
      rcases hp with rfl | rfl | hp
      · -- the gap before the leftmost match: no occurrence anywhere inside
        right
        intro j
        by_cases hj : j < i
        · by_cases hocc : ciStartsWith q ((t.take i).drop j) = true
          · have h1 : (t.take i).drop j = (t.drop j).take (i - j) := by
              rw [List.drop_take]
            rw [h1] at hocc
            have h2 := ciStartsWith_of_take q (i - j) (t.drop j) hocc
            have h3 := ciFind_some_leftmost q t i hfind j hj
            rw [h2] at h3
            exact absurd h3 (by simp)
          · exact Bool.eq_false_iff.mpr hocc
        · have hnil : (t.take i).drop j = [] := by
            apply List.drop_eq_nil_of_le
            simp
            omega
          rw [hnil]
          cases q with
          | nil => exact absurd rfl hq
          | cons a qs => rfl
      · -- the match itself: case-insensitively equal to the query
        left
        have hm := ciFind_some_match q t i hfind
        exact ciStartsWith_toLower_take q (t.drop i) hm
      · -- parts of the remainder: induction hypothesis
        exact ih (t.drop (i + q.length)) (by simp [List.length_drop]; omega) p hp

theorem mem_flatten_decomp {α : Type} : ∀ (L : List (List α)) (p : List α),
    p ∈ L → ∃ pre post, L.flatten = pre ++ p ++ post := by
  intro L
  induction L with
  | nil => intro p hp; simp at hp
  | cons a L ih =>
    intro p hp
    rcases List.mem_cons.mp hp with rfl | hp
    · exact ⟨[], L.flatten, by simp⟩
    · obtain ⟨pre, post, hpp⟩ := ih p hp
      exact ⟨a ++ pre, post, by simp [hpp]⟩

theorem string_mk_data (s : String) : (⟨s.data⟩ : String) = s := by
  cases s
  rfl

theorem data_ne_nil_of_trim {q : String} (h : jsTrim q ≠ "") : q.data ≠ [] := by
  intro hd
  apply h
  have : q = "" := by
    cases q with
    | mk l =>
      simp only [String.data] at hd
      rw [hd]
  rw [this]
  rfl

/-- C5: escaping the query always yields a pattern that compiles to the
literal query (so highlighting never throws and never matches as a
pattern); the rendered parts concatenate back to the whole text; a part
is marked exactly when it equals the query case-insensitively; an
unmarked part contains no case-insensitive occurrence of the query at
any position; and every marked part is a contiguous region of the
text. -/
theorem C5_highlight_literal :
    (∀ q : String, regexLiteral (escapeRegexList q.data) = some q.data) ∧
    (∀ text q : String, renderedParts (renderHighlightedText text q) = text) ∧
    (∀ text q : String, jsTrim q ≠ "" →
      ∀ p ∈ renderHighlightedText text q,
        (p.2 = true ↔ jsToLowerList p.1.data = jsToLowerList q.data)) ∧
    (∀ text q : String, jsTrim q ≠ "" →
      ∀ p ∈ renderHighlightedText text q, p.2 = false →
        ∀ j, ciStartsWith q.data (p.1.data.drop j) = false) ∧
    (∀ text q : String, jsTrim q ≠ "" →
      ∀ p ∈ renderHighlightedText text q, p.2 = true →
        ∃ pre post, text.data = pre ++ p.1.data ++ post) := by
  have hparts : ∀ text q : String, jsTrim q ≠ "" →
      ∀ p ∈ renderHighlightedText text q,
        p.1.data ∈ highlightSplit q.data text.data ∧
        (p.2 = true ↔ jsToLowerList p.1.data = jsToLowerList q.data) := by
    intro text q h p hp
    unfold renderHighlightedText at hp
    rw [if_neg h] at hp
    obtain ⟨l, hl, hpeq⟩ := List.mem_map.mp hp
    subst hpeq
    refine ⟨hl, ?_⟩
    simp
  refine ⟨fun q => regexLiteral_escape q.data, ?_, ?_, ?_, ?_⟩
  · intro text q
    unfold renderHighlightedText renderedParts
    by_cases h : jsTrim q = ""
    · rw [if_pos h]
      simp [string_mk_data]
    · rw [if_neg h]
      rw [List.map_map]
      have hmap : ((highlightSplit q.data text.data).map
          ((fun p => p.1.data) ∘ (fun p => ((⟨p⟩ : String), jsToLowerList p == jsToLowerList q.data)))) =
          highlightSplit q.data text.data := by
        apply List.map_id''
        intro l
        rfl
      rw [hmap]
      unfold highlightSplit
      rw [highlightSplitAux_flatten q.data (data_ne_nil_of_trim h) text.data.length text.data (le_refl _)]
  · intro text q h p hp
    exact (hparts text q h p hp).2
  · intro text q h p hp hfalse j
    have hmem := (hparts text q h p hp).1
    have hiff := (hparts text q h p hp).2
    have hne : jsToLowerList p.1.data ≠ jsToLowerList q.data := by
      intro heq
      rw [hiff.mpr heq] at hfalse
      exact Bool.true_eq_false.mp hfalse
    have := highlightSplitAux_parts q.data (data_ne_nil_of_trim h)
      text.data.length text.data (le_refl _) p.1.data hmem
    rcases this with heq | hno
    · exact absurd heq hne
    · exact hno j
  · intro text q h p hp _
    have hmem := (hparts text q h p hp).1
    obtain ⟨pre, post, hdecomp⟩ :=
      mem_flatten_decomp (highlightSplit q.data text.data) p.1.data hmem
    refine ⟨pre, post, ?_⟩
    rw [← hdecomp]
    unfold highlightSplit
    rw [highlightSplitAux_flatten q.data (data_ne_nil_of_trim h) text.data.length text.data (le_refl _)]

/-- C5 witness: the theorem evaluated on a query containing the regex
metacharacter `+`. -/
theorem C5_highlight_literal_witness :
    regexLiteral (escapeRegexList "3+1".data) = some "3+1".data ∧
    renderedParts (renderHighlightedText "pay 3+1 or 3.1 now" "3+1") = "pay 3+1 or 3.1 now" ∧
    (("3+1", true) ∈ renderHighlightedText "pay 3+1 or 3.1 now" "3+1" →
      jsToLowerList "3+1".data = jsToLowerList "3+1".data) := by
  refine ⟨C5_highlight_literal.1 "3+1",
    C5_highlight_literal.2.1 "pay 3+1 or 3.1 now" "3+1", ?_⟩
  intro hp
  exact (C5_highlight_literal.2.2.1 "pay 3+1 or 3.1 now" "3+1" (by decide)
    ("3+1", true) hp).mp rfl

/-! ## C9: recent-uploads de-duplication -/

/-- C9: inserting an entry whose fingerprint key is already present
leaves the list unchanged (the first-seen entry is kept, not moved to
the front); inserting a new key prepends the entry; and the key list
stays duplicate-free. -/
theorem C9_recent_uploads :
    (∀ (prev : List RecentUpload) (key name dur : String) (now : Nat),
      (∃ item ∈ prev, item.cacheKey = key) →
      addToRecentUploads prev key name dur now = prev) ∧
    (∀ (prev : List RecentUpload) (key name dur : String) (now : Nat),
      (∀ item ∈ prev, item.cacheKey ≠ key) →
      addToRecentUploads prev key name dur now = ⟨name, dur, now, key⟩ :: prev) ∧
    (∀ (prev : List RecentUpload) (key name dur : String) (now : Nat),
      (prev.map RecentUpload.cacheKey).Nodup →
      ((addToRecentUploads prev key name dur now).map RecentUpload.cacheKey).Nodup) := by
  have hpos : ∀ (prev : List RecentUpload) (key : String),
      (∃ item ∈ prev, item.cacheKey = key) →
      (prev.any (fun item => item.cacheKey = key)) = true := by
    intro prev key ⟨item, hmem, hkey⟩
    rw [List.any_eq_true]
    exact ⟨item, hmem, by simp [hkey]⟩
  have hneg : ∀ (prev : List RecentUpload) (key : String),
      (∀ item ∈ prev, item.cacheKey ≠ key) →
      (prev.any (fun item => item.cacheKey = key)) = false := by
    intro prev key h
    rw [List.any_eq_false]
    intro item hmem
    simp [h item hmem]
  refine ⟨?_, ?_, ?_⟩
  · intro prev key name dur now h
    unfold addToRecentUploads
    rw [if_pos (hpos prev key h)]
  · intro prev key name dur now h
    unfold addToRecentUploads
    rw [if_neg (by simp [hneg prev key h])]
  · intro prev key name dur now h
    unfold addToRecentUploads
    by_cases hin : (prev.any (fun item => item.cacheKey = key)) = true
    · rw [if_pos hin]
      exact h
    · rw [if_neg hin]
      rw [List.map_cons, List.nodup_cons]
      refine ⟨?_, h⟩
      intro hkmem
      obtain ⟨item, hmem, hkey⟩ := List.mem_map.mp hkmem
      have hin' : (prev.any (fun item => item.cacheKey = key)) = false :=
        Bool.eq_false_iff.mpr hin
      rw [List.any_eq_false] at hin'
      exact hin' item hmem (by simpa using hkey)

/-- C9 witness: the three parts evaluated on concrete lists. -/
theorem C9_recent_uploads_witness :
    addToRecentUploads [⟨"a.wav", "1m", 5, "k1"⟩] "k1" "b.wav" "2m" 9 =
      [⟨"a.wav", "1m", 5, "k1"⟩] ∧
    addToRecentUploads [⟨"a.wav", "1m", 5, "k1"⟩] "k2" "b.wav" "2m" 9 =
      [⟨"b.wav", "2m", 9, "k2"⟩, ⟨"a.wav", "1m", 5, "k1"⟩] ∧
    ((addToRecentUploads [⟨"a.wav", "1m", 5, "k1"⟩] "k2" "b.wav" "2m" 9).map
      RecentUpload.cacheKey).Nodup := by
  refine ⟨?_, ?_, ?_⟩
  · exact C9_recent_uploads.1 [⟨"a.wav", "1m", 5, "k1"⟩] "k1" "b.wav" "2m" 9
      ⟨⟨"a.wav", "1m", 5, "k1"⟩, by simp, rfl⟩
  · exact C9_recent_uploads.2.1 [⟨"a.wav", "1m", 5, "k1"⟩] "k2" "b.wav" "2m" 9
      (by decide)
  · exact C9_recent_uploads.2.2 [⟨"a.wav", "1m", 5, "k1"⟩] "k2" "b.wav" "2m" 9
      (by decide)

/-! ## C7: missing API key -/

/-- C7: when both environment variables holding the provider key are
falsy (absent or empty) and the client singleton is uninitialized, the
first use fails with the explicit missing-key configuration error and
zero provider requests are issued. -/
theorem C7_missing_key (env : Env)
    (provider : AIClient → Except String AnalysisResult)
    (h1 : jsFalsy env.apiKeyVar = true) (h2 : jsFalsy env.geminiApiKeyVar = true) :
    (analyzeSalesCallService env none provider).result = .error missingKeyMsg ∧
    (analyzeSalesCallService env none provider).requestsIssued = 0 := by
  unfold analyzeSalesCallService getAIClient jsOrEnv
  rw [if_pos h1, if_pos h2]
  exact ⟨rfl, rfl⟩

/-- C7 witness: the unset and empty-string environments. -/
theorem C7_missing_key_witness :
    (analyzeSalesCallService ⟨none, some ""⟩ none
      (fun _ => .error "provider unreachable")).result = .error missingKeyMsg ∧
    (analyzeSalesCallService ⟨none, some ""⟩ none
      (fun _ => .error "provider unreachable")).requestsIssued = 0 :=
  C7_missing_key ⟨none, some ""⟩ (fun _ => .error "provider unreachable")
    (by decide) (by decide)

/-! ## C10: signed-out file selection is a no-op -/

/-- C10: in the persisted variant, `handleFileSelect` with no signed-in
user returns the state unchanged: no transition, no handle allocation,
no encoding, no analysis request, no persistence call. -/
theorem C10_signed_out_noop (s : SupaState) (f : File) (enc : EncOutcome)
    (storageErr : Option String) (ana : AnaOutcome) (db : Except String DbCall)
    (pubUrl : String) (hist : List DbCall) (hu : s.user = none) :
    supaHandleFileSelect s f enc storageErr ana db pubUrl hist = s := by
  unfold supaHandleFileSelect
  rw [hu]

/-- C10 witness: the no-op at a concrete signed-out state. -/
theorem C10_signed_out_noop_witness :
    supaHandleFileSelect (supaInit none) fSample (.ok "ZGF0YQ==" "3m 20s") none
      (.ok sampleResult) (.ok sampleRow) "https://pub/a.wav" [] = supaInit none :=
  C10_signed_out_noop (supaInit none) fSample (.ok "ZGF0YQ==" "3m 20s") none
    (.ok sampleResult) (.ok sampleRow) "https://pub/a.wav" [] rfl

/-! ## C1: cache hit issues no second analysis call -/

theorem mapGet_mapSet_self {α : Type} (m : List (String × α)) (k : String) (v : α) :
    mapGet (mapSet m k v) k = some v := by
  induction m with
  | nil => simp [mapSet, mapGet]
  | cons p ps ih =>
    by_cases h : p.1 = k
    · simp [mapSet, h, mapGet]
    · simp [mapSet, h, mapGet, ih]

/-- C1: starting from any state whose cache has no entry for the file's
fingerprint, a first successful selection of the file followed by a
second selection with the same fingerprint performs exactly one
`analyzeSalesCall` invocation across the two selections; the second
selection reaches `SUCCESS` with the cached result and duration
rebound, whatever outcomes its own (unused) encode and analysis
oracles would have had. -/
theorem C1_cache_single_call (s : CState) (f f2 : File) (b64 dur : String)
    (r : AnalysisResult) (now1 now2 : Nat) (enc2 : EncOutcome) (ana2 : AnaOutcome)
    (hmiss : mapGet s.analysisCache (fileCacheKey f) = none)
    (hkey : fileCacheKey f2 = fileCacheKey f) :
    (handleFileSelect s f true (.ok b64 dur) (.ok r) now1).analysisCalls =
      s.analysisCalls + 1 ∧
    (handleFileSelect (handleFileSelect s f true (.ok b64 dur) (.ok r) now1)
        f2 true enc2 ana2 now2).analysisCalls = s.analysisCalls + 1 ∧
    (handleFileSelect (handleFileSelect s f true (.ok b64 dur) (.ok r) now1)
        f2 true enc2 ana2 now2).appState = .SUCCESS ∧
    (handleFileSelect (handleFileSelect s f true (.ok b64 dur) (.ok r) now1)
        f2 true enc2 ana2 now2).analysisData = some r ∧
    (handleFileSelect (handleFileSelect s f true (.ok b64 dur) (.ok r) now1)
        f2 true enc2 ana2 now2).duration = dur := by
  refine ⟨?_, ?_, ?_, ?_, ?_⟩ <;>
    simp [handleFileSelect, hmiss, hkey, mapGet_mapSet_self]

/-- C1 witness: the theorem evaluated at the initial state with a
concrete file selected twice. -/
theorem C1_cache_single_call_witness :
    (handleFileSelect cInit fSample true (.ok "ZGF0YQ==" "3m 20s") (.ok sampleResult) 100).analysisCalls = 1 ∧
    (handleFileSelect (handleFileSelect cInit fSample true (.ok "ZGF0YQ==" "3m 20s") (.ok sampleResult) 100)
        fSample true (.err none) (.err none) 200).analysisCalls = 1 ∧
    (handleFileSelect (handleFileSelect cInit fSample true (.ok "ZGF0YQ==" "3m 20s") (.ok sampleResult) 100)
        fSample true (.err none) (.err none) 200).appState = .SUCCESS ∧
    (handleFileSelect (handleFileSelect cInit fSample true (.ok "ZGF0YQ==" "3m 20s") (.ok sampleResult) 100)
        fSample true (.err none) (.err none) 200).analysisData = some sampleResult ∧
    (handleFileSelect (handleFileSelect cInit fSample true (.ok "ZGF0YQ==" "3m 20s") (.ok sampleResult) 100)
        fSample true (.err none) (.err none) 200).duration = "3m 20s" :=
  C1_cache_single_call cInit fSample fSample "ZGF0YQ==" "3m 20s" sampleResult
    100 200 (.err none) (.err none) rfl rfl

/-! ## C6: persistence-layer failures -/

/-- C6 counterexample: with a signed-in user, a run whose storage
upload succeeds, whose analysis succeeds, and whose database insert
fails ends in `ERROR`, not `SUCCESS` — the insert error is thrown and
caught by the failure path, aborting the pipeline. -/
theorem C6_counterexample :
    (supaHandleFileSelect (supaInit (some "u1")) fSample (.ok "ZGF0YQ==" "3m 20s")
      none (.ok sampleResult) (.error "permission denied") "https://pub/a.wav" []).appState ≠
      AppState.SUCCESS ∧
    (supaHandleFileSelect (supaInit (some "u1")) fSample (.ok "ZGF0YQ==" "3m 20s")
      none (.ok sampleResult) (.error "permission denied") "https://pub/a.wav" []).appState =
      AppState.ERROR := by
  exact ⟨by decide, by decide⟩

/-- C6 (amended): a storage-upload failure never aborts the pipeline —
the run continues, only a dismissible toast warning is set, and with the
remaining steps succeeding the run still reaches `SUCCESS` (bound to the
storage public URL, not a local fallback); a database-insert failure,
however, is thrown: the run transitions to `ERROR` carrying the insert
error message. -/
theorem C6_persistence_failures (s : SupaState) (u : String) (f : File)
    (b64 dur : String) (r : AnalysisResult) (row : DbCall) (pubUrl : String)
    (hist : List DbCall) (hu : s.user = some u) :
    (∀ m : String,
      (supaHandleFileSelect s f (.ok b64 dur) (some m) (.ok r) (.ok row) pubUrl hist).appState =
        .SUCCESS ∧
      (supaHandleFileSelect s f (.ok b64 dur) (some m) (.ok r) (.ok row) pubUrl hist).analysisData =
        some r ∧
      (supaHandleFileSelect s f (.ok b64 dur) (some m) (.ok r) (.ok row) pubUrl hist).audioUrl =
        some (UrlRef.remote pubUrl) ∧
      (supaHandleFileSelect s f (.ok b64 dur) (some m) (.ok r) (.ok row) pubUrl hist).toastMessage =
        some (if jsIncludes m "Bucket not found" then
          "⚠️ Supabase Storage: \x27calls\x27 bucket not found. Please create it in the dashboard."
        else "⚠️ Storage upload failed. Using local audio link.")) ∧
    (∀ (storageErr : Option String) (m : String),
      (supaHandleFileSelect s f (.ok b64 dur) storageErr (.ok r) (.error m) pubUrl hist).appState =
        .ERROR ∧
      (supaHandleFileSelect s f (.ok b64 dur) storageErr (.ok r) (.error m) pubUrl hist).errorMsg =
        some (jsOrStr (some m) "Something went wrong. Please try again.")) := by
  constructor
  · intro m
    unfold supaHandleFileSelect
    rw [hu]
    by_cases hb : jsIncludes m "Bucket not found" = true
    · simp [hb]
    · simp only [Bool.not_eq_true] at hb
      simp [hb]
  · intro storageErr m
    unfold supaHandleFileSelect
    rw [hu]
    cases storageErr with
    | none => exact ⟨rfl, rfl⟩
    | some w =>
      by_cases hb : jsIncludes w "Bucket not found" = true
      · simp [hb]
      · simp only [Bool.not_eq_true] at hb
        simp [hb]

/-- C6 witness: the amended theorem evaluated at a concrete signed-in
state with a failing storage upload and, separately, a failing
database insert. -/
theorem C6_persistence_failures_witness :
    (supaHandleFileSelect (supaInit (some "u1")) fSample (.ok "ZGF0YQ==" "3m 20s")
      (some "Bucket not found") (.ok sampleResult) (.ok sampleRow) "https://pub/a.wav" []).appState =
      .SUCCESS ∧
    (supaHandleFileSelect (supaInit (some "u1")) fSample (.ok "ZGF0YQ==" "3m 20s")
      (some "network down") (.ok sampleResult) (.error "permission denied") "https://pub/a.wav" []).appState =
      .ERROR := by
  constructor
  · exact (C6_persistence_failures (supaInit (some "u1")) "u1" fSample "ZGF0YQ=="
      "3m 20s" sampleResult sampleRow "https://pub/a.wav" [] rfl).1 "Bucket not found" |>.1
  · exact ((C6_persistence_failures (supaInit (some "u1")) "u1" fSample "ZGF0YQ=="
      "3m 20s" sampleResult sampleRow "https://pub/a.wav" [] rfl).2 (some "network down")
      "permission denied").1

/-! ## C8: playable-resource handle lifecycle -/

theorem CInv_init : CInv cInit := by
  refine ⟨fun _ => rfl, ?_, ?_, List.nodup_nil⟩
  · intro u hu; simp [cInit] at hu
  · intro u hu; simp [cInit] at hu

theorem handleFileSelect_urlFail (s : CState) (f : File) (enc : EncOutcome)
    (ana : AnaOutcome) (now : Nat) :
    handleFileSelect s f false enc ana now =
      { s with appState := .ERROR,
               errorMsg := some "Failed to initialize audio player. Your browser may not support this file type.",
               fileName := f.name } := by
  simp [handleFileSelect]

theorem handleFileSelect_hit (s : CState) (f : File) (enc : EncOutcome)
    (ana : AnaOutcome) (now : Nat) (cached : CachedAnalysis)
    (hget : mapGet s.analysisCache (fileCacheKey f) = some cached) :
    handleFileSelect s f true enc ana now =
      { s with appState := .SUCCESS, errorMsg := none, fileName := f.name,
               audioUrl := some s.nextUrl, nextUrl := s.nextUrl + 1,
               duration := cached.duration, analysisData := some cached.result,
               recentUploads := addToRecentUploads s.recentUploads (fileCacheKey f)
                 f.name cached.duration now } := by
  simp [handleFileSelect, hget]

theorem handleFileSelect_encErr (s : CState) (f : File) (msg : Option String)
    (ana : AnaOutcome) (now : Nat)
    (hget : mapGet s.analysisCache (fileCacheKey f) = none) :
    handleFileSelect s f true (.err msg) ana now =
      { s with appState := .ERROR,
               errorMsg := some "Unable to process the audio file. It might be corrupted or in an unsupported format.",
               fileName := f.name, audioUrl := none, nextUrl := s.nextUrl + 1,
               revoked := s.revoked ++ [s.nextUrl] } := by
  simp [handleFileSelect, hget]

theorem handleFileSelect_anaErr (s : CState) (f : File) (b64 dur : String)
    (msg : Option String) (now : Nat)
    (hget : mapGet s.analysisCache (fileCacheKey f) = none) :
    handleFileSelect s f true (.ok b64 dur) (.err msg) now =
      { s with appState := .ERROR, errorMsg := some (mapGeminiError msg),
               fileName := f.name, audioUrl := none, nextUrl := s.nextUrl + 1,
               duration := dur, analysisCalls := s.analysisCalls + 1,
               revoked := s.revoked ++ [s.nextUrl] } := by
  simp [handleFileSelect, hget]

theorem handleFileSelect_ok (s : CState) (f : File) (b64 dur : String)
    (r : AnalysisResult) (now : Nat)
    (hget : mapGet s.analysisCache (fileCacheKey f) = none) :
    handleFileSelect s f true (.ok b64 dur) (.ok r) now =
      { s with appState := .SUCCESS, errorMsg := none, fileName := f.name,
               audioUrl := some s.nextUrl, nextUrl := s.nextUrl + 1,
               duration := dur, analysisCalls := s.analysisCalls + 1,
               analysisCache := mapSet s.analysisCache (fileCacheKey f) ⟨r, dur, f, now⟩,
               recentUploads := addToRecentUploads s.recentUploads (fileCacheKey f) f.name dur now,
               analysisData := some r } := by
  simp [handleFileSelect, hget]

theorem handleReset_bound (s : CState) (u0 : Nat) (hurl : s.audioUrl = some u0) :
    handleReset s =
      { s with revoked := s.revoked ++ [u0], audioUrl := none, appState := .IDLE,
               analysisData := none, fileName := "", duration := "",
               errorMsg := none, isShareOpen := false } := by
  simp [handleReset, hurl]

theorem handleReset_unbound (s : CState) (hurl : s.audioUrl = none) :
    handleReset s =
      { s with audioUrl := none, appState := .IDLE, analysisData := none,
               fileName := "", duration := "", errorMsg := none,
               isShareOpen := false } := by
  simp [handleReset, hurl]

theorem handleRecentSelect_found (s : CState) (key : String)
    (cached : CachedAnalysis) (hget : mapGet s.analysisCache key = some cached) :
    handleRecentSelect s key true =
      { s with appState := .SUCCESS, audioUrl := some s.nextUrl,
               nextUrl := s.nextUrl + 1, fileName := cached.file.name,
               duration := cached.duration, analysisData := some cached.result } := by
  simp [handleRecentSelect, hget]

theorem handleRecentSelect_urlFail (s : CState) (key : String)
    (cached : CachedAnalysis) (hget : mapGet s.analysisCache key = some cached) :
    handleRecentSelect s key false =
      { s with appState := .IDLE,
               errorMsg := some "Could not restore previous session. Please upload the file again." } := by
  simp [handleRecentSelect, hget]

theorem handleRecentSelect_missing (s : CState) (key : String) (urlOk : Bool)
    (hget : mapGet s.analysisCache key = none) :
    handleRecentSelect s key urlOk = s := by
  simp [handleRecentSelect, hget]

theorem CInv_handleFileSelect {s : CState}
    (hs : s.appState = .IDLE ∨ s.appState = .ERROR) (hinv : CInv s)
    (f : File) (urlOk : Bool) (enc : EncOutcome) (ana : AnaOutcome) (now : Nat) :
    CInv (handleFileSelect s f urlOk enc ana now) := by
  obtain ⟨hA, hB, hC, hD⟩ := hinv
  have hnone : s.audioUrl = none := hA hs
  have hfresh : s.nextUrl ∉ s.revoked := fun hmem => lt_irrefl _ (hC _ hmem)
  have hDapp : (s.revoked ++ [s.nextUrl]).Nodup := by
    simp [List.nodup_append, hD, hfresh]
  have hCapp : ∀ u ∈ s.revoked ++ [s.nextUrl], u < s.nextUrl + 1 := by
    intro u hu
    rcases List.mem_append.mp hu with h | h
    · exact Nat.lt_succ_of_lt (hC u h)
    · simp at h
      omega
  cases urlOk with
  | false =>
    rw [handleFileSelect_urlFail]
    refine ⟨fun _ => hnone, ?_, hC, hD⟩
    intro u hu
    rw [hnone] at hu
    exact absurd hu (by simp)
  | true =>
    cases hget : mapGet s.analysisCache (fileCacheKey f) with
    | some cached =>
      rw [handleFileSelect_hit s f enc ana now cached hget]
      refine ⟨fun h => by simp at h, ?_, fun u hu => Nat.lt_succ_of_lt (hC u hu), hD⟩
      intro u hu
      simp at hu
      subst hu
      exact ⟨Nat.lt_succ_self _, hfresh⟩
    | none =>
      cases enc with
      | err msg =>
        rw [handleFileSelect_encErr s f msg ana now hget]
        refine ⟨fun _ => rfl, ?_, hCapp, hDapp⟩
        intro u hu
        simp at hu
      | ok b64 dur =>
        cases ana with
        | err msg =>
          rw [handleFileSelect_anaErr s f b64 dur msg now hget]
          refine ⟨fun _ => rfl, ?_, hCapp, hDapp⟩
          intro u hu
          simp at hu
        | ok r =>
          rw [handleFileSelect_ok s f b64 dur r now hget]
          refine ⟨fun h => by simp at h, ?_, fun u hu => Nat.lt_succ_of_lt (hC u hu), hD⟩
          intro u hu
          simp at hu
          subst hu
          exact ⟨Nat.lt_succ_self _, hfresh⟩

theorem CInv_handleReset {s : CState} (hinv : CInv s) : CInv (handleReset s) := by
  obtain ⟨hA, hB, hC, hD⟩ := hinv
  cases hurl : s.audioUrl with
  | none =>
    rw [handleReset_unbound s hurl]
    refine ⟨fun _ => rfl, ?_, hC, hD⟩
    intro u hu
    simp at hu
  | some u0 =>
    obtain ⟨hu0lt, hu0mem⟩ := hB u0 hurl
    rw [handleReset_bound s u0 hurl]
    refine ⟨fun _ => rfl, ?_, ?_, ?_⟩
    · intro u hu
      simp at hu
    · intro u hu
      rcases List.mem_append.mp hu with h | h
      · exact hC u h
      · simp at h
        subst h
        exact hu0lt
    · simp [List.nodup_append, hD, hu0mem]

theorem CInv_handleRecentSelect {s : CState}
    (hs : s.appState = .IDLE ∨ s.appState = .ERROR) (hinv : CInv s)
    (key : String) (urlOk : Bool) : CInv (handleRecentSelect s key urlOk) := by
  obtain ⟨hA, hB, hC, hD⟩ := hinv
  have hnone : s.audioUrl = none := hA hs
  have hfresh : s.nextUrl ∉ s.revoked := fun hmem => lt_irrefl _ (hC _ hmem)
  cases hget : mapGet s.analysisCache key with
  | none =>
    rw [handleRecentSelect_missing s key urlOk hget]
    exact ⟨hA, hB, hC, hD⟩
  | some cached =>
    cases urlOk with
    | false =>
      rw [handleRecentSelect_urlFail s key cached hget]
      refine ⟨fun _ => hnone, ?_, hC, hD⟩
      intro u hu
      rw [hnone] at hu
      exact absurd hu (by simp)
    | true =>
      rw [handleRecentSelect_found s key cached hget]
      refine ⟨fun h => by simp at h, ?_, fun u hu => Nat.lt_succ_of_lt (hC u hu), hD⟩
      intro u hu
      simp at hu
      subst hu
      exact ⟨Nat.lt_succ_self _, hfresh⟩

theorem CInv_cStep {s : CState} (hinv : CInv s) (e : CEvent) : CInv (cStep s e) := by
  cases e with
  | select f urlOk enc ana now =>
    show CInv (if s.appState = .IDLE ∨ s.appState = .ERROR then
      handleFileSelect s f urlOk enc ana now else s)
    by_cases hs : s.appState = .IDLE ∨ s.appState = .ERROR
    · rw [if_pos hs]
      exact CInv_handleFileSelect hs hinv f urlOk enc ana now
    · rw [if_neg hs]
      exact hinv
  | reset =>
    show CInv (if s.appState = .SUCCESS then handleReset s else s)
    by_cases hs : s.appState = .SUCCESS
    · rw [if_pos hs]
      exact CInv_handleReset hinv
    · rw [if_neg hs]
      exact hinv
  | recent key urlOk =>
    show CInv (if s.appState = .IDLE ∨ s.appState = .ERROR then
      handleRecentSelect s key urlOk else s)
    by_cases hs : s.appState = .IDLE ∨ s.appState = .ERROR
    · rw [if_pos hs]
      exact CInv_handleRecentSelect hs hinv key urlOk
    · rw [if_neg hs]
      exact hinv

theorem CInv_reachable {s : CState} (h : CReachable s) : CInv s := by
  induction h with
  | init => exact CInv_init
  | step e _ ih => exact CInv_cStep ih e

/-- C8 counterexample: in the persisted variant, a fully successful run
replaces the local handle (blob 0) with the storage public URL without
revoking it, and a subsequent reset revokes nothing (revoking a non-blob
URL is a no-op) — the handle created by that selection is released zero
times, not exactly once. -/
theorem C8_counterexample :
    (supaHandleFileSelect (supaInit (some "u1")) fSample (.ok "ZGF0YQ==" "3m 20s")
      none (.ok sampleResult) (.ok sampleRow) "https://pub/a.wav" []).nextBlob = 1 ∧
    (supaHandleFileSelect (supaInit (some "u1")) fSample (.ok "ZGF0YQ==" "3m 20s")
      none (.ok sampleResult) (.ok sampleRow) "https://pub/a.wav" []).audioUrl =
      some (UrlRef.remote "https://pub/a.wav") ∧
    (supaHandleReset (supaHandleFileSelect (supaInit (some "u1")) fSample
      (.ok "ZGF0YQ==" "3m 20s") none (.ok sampleResult) (.ok sampleRow)
      "https://pub/a.wav" [])).revokedBlobs = [] := by
  exact ⟨by decide, by decide, by decide⟩

/-- C8 (amended): in the cache variant, along every UI-reachable
execution no handle is ever revoked twice, a handle still bound to the
player is never revoked, reset from `Success` releases the bound handle
exactly once and unbinds it, and a selection failing in encoding or in
analysis releases the handle it created exactly once before entering
`Error`; in the persisted variant, however, the successful run replaces
the local handle with the storage public URL without releasing it. -/
theorem C8_resource_release :
    (∀ s : CState, CReachable s → s.revoked.Nodup) ∧
    (∀ (s : CState) (u : Nat), CReachable s → s.audioUrl = some u → u ∉ s.revoked) ∧
    (∀ (s : CState) (u : Nat), CReachable s → s.appState = .SUCCESS →
      s.audioUrl = some u →
      (cStep s .reset).revoked.count u = 1 ∧ (cStep s .reset).audioUrl = none) ∧
    (∀ (s : CState) (f : File) (msg : Option String) (ana : AnaOutcome) (now : Nat),
      CReachable s → (s.appState = .IDLE ∨ s.appState = .ERROR) →
      mapGet s.analysisCache (fileCacheKey f) = none →
      (cStep s (.select f true (.err msg) ana now)).revoked.count s.nextUrl = 1 ∧
      (cStep s (.select f true (.err msg) ana now)).audioUrl = none ∧
      (cStep s (.select f true (.err msg) ana now)).appState = .ERROR) ∧
    (∀ (s : CState) (f : File) (b64 dur : String) (msg : Option String) (now : Nat),
      CReachable s → (s.appState = .IDLE ∨ s.appState = .ERROR) →
      mapGet s.analysisCache (fileCacheKey f) = none →
      (cStep s (.select f true (.ok b64 dur) (.err msg) now)).revoked.count s.nextUrl = 1 ∧
      (cStep s (.select f true (.ok b64 dur) (.err msg) now)).audioUrl = none ∧
      (cStep s (.select f true (.ok b64 dur) (.err msg) now)).appState = .ERROR) := by
  have hcount : ∀ (s : CState), CReachable s →
      (s.revoked ++ [s.nextUrl]).count s.nextUrl = 1 := by
    intro s hr
    obtain ⟨_, _, hC, _⟩ := CInv_reachable hr
    have hfresh : s.nextUrl ∉ s.revoked := fun hmem => lt_irrefl _ (hC _ hmem)
    rw [List.count_append, List.count_eq_zero.mpr hfresh]
    simp
  refine ⟨?_, ?_, ?_, ?_, ?_⟩
  · intro s hr
    exact (CInv_reachable hr).2.2.2
  · intro s u hr hu
    exact ((CInv_reachable hr).2.1 u hu).2
  · intro s u hr hstate hu
    obtain ⟨_, hB, hC, _⟩ := CInv_reachable hr
    obtain ⟨hult, humem⟩ := hB u hu
    simp only [cStep]
    rw [if_pos hstate, handleReset_bound s u hu]
    refine ⟨?_, rfl⟩
    show (s.revoked ++ [u]).count u = 1
    rw [List.count_append, List.count_eq_zero.mpr humem]
    simp
  · intro s f msg ana now hr hstate hmiss
    simp only [cStep]
    rw [if_pos hstate, handleFileSelect_encErr s f msg ana now hmiss]
    refine ⟨?_, rfl, rfl⟩
    show (s.revoked ++ [s.nextUrl]).count s.nextUrl = 1
    exact hcount s hr
  · intro s f b64 dur msg now hr hstate hmiss
    simp only [cStep]
    rw [if_pos hstate, handleFileSelect_anaErr s f b64 dur msg now hmiss]
    refine ⟨?_, rfl, rfl⟩
    show (s.revoked ++ [s.nextUrl]).count s.nextUrl = 1
    exact hcount s hr

/-- C8 witness: the amended theorem evaluated along a concrete run — a
failing analysis releases the created handle once, and a reset from a
reached `SUCCESS` releases the bound handle once. -/
theorem C8_resource_release_witness :
    (cStep cInit (.select fSample true (.ok "ZGF0YQ==" "3m 20s") (.err none) 100)).revoked.count 0 = 1 ∧
    (cStep (cStep cInit (.select fSample true (.ok "ZGF0YQ==" "3m 20s") (.ok sampleResult) 100))
      .reset).revoked.count 0 = 1 ∧
    (cStep (cStep cInit (.select fSample true (.ok "ZGF0YQ==" "3m 20s") (.ok sampleResult) 100))
      .reset).audioUrl = none := by
  have hr0 : CReachable cInit := CReachable.init
  have h1 := (C8_resource_release.2.2.2.2 cInit fSample "ZGF0YQ==" "3m 20s" none 100
    hr0 (Or.inl rfl) rfl).1
  have hs1 : CReachable (cStep cInit
      (.select fSample true (.ok "ZGF0YQ==" "3m 20s") (.ok sampleResult) 100)) :=
    CReachable.step _ hr0
  have h2 := C8_resource_release.2.2.1
    (cStep cInit (.select fSample true (.ok "ZGF0YQ==" "3m 20s") (.ok sampleResult) 100))
    0 hs1 (by decide) (by decide)
  exact ⟨h1, h2.1, h2.2⟩

end SalesIQ
